import Mathlib

/-!
Shallow embedding of the review lifecycle engine of `services/reviewService.js`:
the data model (Review, Feedback), the pure status aggregation inlined in
`updateReviewStatus`, and the stateful operations `createReview`, `addFeedback`,
`approveReview`, `updateReviewStatus`, `updateReviewStatusManually`.  The store
(Prisma) is modelled as an explicit record of rows; chat notifications are
modelled as a log of attempted `chat.postMessage` calls.
-/

namespace ReviewBot

/-- Model of a JavaScript `Date`: a calendar day index (days since epoch,
local time) and the milliseconds elapsed within that day.  `setHours` and
`setDate` act on the two components; comparisons are on the epoch value. -/
structure JsDate where
  day : Int
  msOfDay : Nat
deriving DecidableEq

/-- The epoch-milliseconds value of a date (what JS compares with `>`). -/
def JsDate.epochMs (d : JsDate) : Int := d.day * 86400000 + (d.msOfDay : Int)

/-- JS `new Date(a) > new Date(b)`. -/
def JsDate.after (a b : JsDate) : Bool := decide (b.epochMs < a.epochMs)

/-- JS `d.setHours(17, 0, 0, 0)`: time-of-day becomes 17:00:00.000. -/
def JsDate.setHours17 (d : JsDate) : JsDate := { day := d.day, msOfDay := 61200000 }

/-- JS `d.setDate(d.getDate() + n)`. -/
def JsDate.addDays (d : JsDate) (n : Int) : JsDate := { d with day := d.day + n }

/-- A Feedback row (Prisma model `feedback`). `reviewId` is the internal
numeric key of the owning review. -/
structure Feedback where
  reviewId : Nat
  reviewerId : String
  reviewerName : String
  comment : String
  status : String
  createdAt : JsDate
deriving DecidableEq

/-- A Review row (Prisma model `review`).  `id` is the internal storage key,
`reviewId` the opaque public identifier. -/
structure Review where
  id : Nat
  reviewId : String
  title : String
  description : String
  creatorId : String
  creatorName : String
  reviewerIds : List String
  reviewerNames : List String
  channel : String
  channelName : String
  client : String
  url : Option String
  status : String
  createdAt : JsDate
  deadline : Option JsDate
  completedAt : Option JsDate
deriving DecidableEq

/-- An attempted `chat.postMessage` call (recipient and `text` payload). -/
structure Notification where
  channel : String
  text : String
deriving DecidableEq

/-- The persistent store plus the log of attempted notifications. -/
structure DB where
  reviews : List Review
  feedbacks : List Feedback
  notifications : List Notification
deriving DecidableEq

/-- `prisma.review.findUnique({ where: { id } })`. -/
def DB.findById (db : DB) (id : Nat) : Option Review :=
  db.reviews.find? fun r => r.id == id

/-- `prisma.review.findUnique({ where: { reviewId } })` (getReviewById). -/
def DB.findByReviewId (db : DB) (rvid : String) : Option Review :=
  db.reviews.find? fun r => r.reviewId == rvid

/-- The `feedbacks` relation included with a review. -/
def DB.feedbacksOf (db : DB) (r : Review) : List Feedback :=
  db.feedbacks.filter fun fb => fb.reviewId == r.id

/-- `prisma.review.update({ where: { id: r.id }, data: ... })`. -/
def DB.saveReview (db : DB) (r : Review) : DB :=
  { db with reviews := db.reviews.map fun x => if x.id = r.id then r else x }

/-- Association-list lookup modelling a JS object keyed by reviewer id. -/
def lookupFb : List (String × Feedback) → String → Option Feedback
  | [], _ => none
  | p :: rest, rid => if p.1 = rid then some p.2 else lookupFb rest rid

/-- One step of the `review.feedbacks.forEach` loop in `updateReviewStatus`
that builds the `reviewerFeedback` object: a reviewer's entry is replaced only
when the new feedback's `createdAt` is strictly greater. -/
def upsertLatest (acc : List (String × Feedback)) (fb : Feedback) :
    List (String × Feedback) :=
  match lookupFb acc fb.reviewerId with
  | none => acc ++ [(fb.reviewerId, fb)]
  | some old =>
    if fb.createdAt.after old.createdAt then
      acc.map fun p => if p.1 = fb.reviewerId then (p.1, fb) else p
    else acc

/-- The `reviewerFeedback` object of `updateReviewStatus`: most recent feedback
per reviewer id, in key-insertion order. -/
def reviewerFeedback (feedbacks : List Feedback) : List (String × Feedback) :=
  feedbacks.foldl upsertLatest []

/-- `review.reviewerIds.every(...)` of `updateReviewStatus`. -/
def allApproved (reviewerIds : List String) (rf : List (String × Feedback)) : Bool :=
  reviewerIds.all fun rid =>
    match lookupFb rf rid with
    | some fb => fb.status == "approved"
    | none => false

/-- `Object.values(reviewerFeedback).some(f => f.status === "requested_changes")`. -/
def anyChangeRequested (rf : List (String × Feedback)) : Bool :=
  rf.any fun p => p.2.status == "requested_changes"

/-- The pure status aggregation inlined in `updateReviewStatus` (the spec's
`deriveStatus`): returns the target status and the `statusChanged` flag. -/
def deriveStatus (currentStatus : String) (reviewerIds : List String)
    (feedbacks : List Feedback) : String × Bool :=
  let rf := reviewerFeedback feedbacks
  if allApproved reviewerIds rf && currentStatus == "in_review" then
    ("approved", true)
  else if anyChangeRequested rf then
    ("in_review", true)
  else
    (currentStatus, false)

/-- Specification-side reducer: the latest feedback (by `createdAt`, earlier
scan position kept on ties) authored by a single reviewer. -/
def pickLatest (rid : String) (acc : Option Feedback) (fb : Feedback) : Option Feedback :=
  if fb.reviewerId = rid then
    match acc with
    | none => some fb
    | some old => if fb.createdAt.after old.createdAt then some fb else some old
  else acc

/-- Latest feedback of reviewer `rid` in scan order. -/
def latestFor (feedbacks : List Feedback) (rid : String) : Option Feedback :=
  feedbacks.foldl (pickLatest rid) none

/-- Every reviewer's latest feedback is `approved` (per-reviewer phrasing). -/
def specAllApproved (reviewerIds : List String) (fbs : List Feedback) : Bool :=
  reviewerIds.all fun rid =>
    match latestFor fbs rid with
    | some fb => fb.status == "approved"
    | none => false

/-- Some author's latest feedback is `requested_changes` (per-author phrasing). -/
def specAnyRC (fbs : List Feedback) : Bool :=
  fbs.any fun fb =>
    match latestFor fbs fb.reviewerId with
    | some l => l.status == "requested_changes"
    | none => false

/-- Result of a lifecycle operation: `ok` mirrors `{ success: true, review }`,
`err` mirrors `{ success: false, message }`. -/
inductive OpResult where
  | ok (review : Option Review)
  | err (message : String)
deriving DecidableEq

/-- Channel notification text sent by `updateReviewStatus` on completion. -/
def autoCompletionText (title : String) : String :=
  "Review for \"" ++ title ++ "\" is now complete and approved!"

/-- `updateReviewStatus(reviewId, client)`: rederives the status from the full
feedback history and persists it when changed; on an automatic transition to
`approved` it also sets `completedAt` and, when a client handle was supplied,
attempts a completion notification to the review's channel. -/
def updateReviewStatus (db : DB) (reviewId : Nat) (hasClient : Bool) (now : JsDate) :
    DB × Option Review :=
  match db.findById reviewId with
  | none => (db, none)
  | some review =>
    let fbs := db.feedbacksOf review
    let res := deriveStatus review.status review.reviewerIds fbs
    let newStatus := res.1
    let statusChanged := res.2
    if statusChanged then
      let updatedReview : Review :=
        { review with
          status := newStatus
          completedAt := if newStatus == "approved" then some now else review.completedAt }
      let db1 := db.saveReview updatedReview
      let db2 :=
        if newStatus == "approved" && hasClient then
          { db1 with notifications := db1.notifications ++
              [{ channel := review.channel, text := autoCompletionText updatedReview.title }] }
        else db1
      (db2, some updatedReview)
    else
      (db, some review)

/-- `addFeedback(reviewId, reviewerId, reviewerName, comment, status, client)`:
looks the review up by its public id, rejects authors outside the reviewer
list, otherwise appends a Feedback row and reruns the status aggregation. -/
def addFeedback (db : DB) (reviewId : String)
    (reviewerId reviewerName comment status : String)
    (hasClient : Bool) (now : JsDate) : DB × OpResult :=
  match db.findByReviewId reviewId with
  | none => (db, .err "Review not found")
  | some review =>
    if review.reviewerIds.contains reviewerId then
      let fb : Feedback :=
        { reviewId := review.id, reviewerId := reviewerId, reviewerName := reviewerName
          comment := comment, status := status, createdAt := now }
      let db1 : DB := { db with feedbacks := db.feedbacks ++ [fb] }
      let stepped := updateReviewStatus db1 review.id hasClient now
      (stepped.1, .ok stepped.2)
    else
      (db, .err "You are not authorized to review this item")

/-- Creator notification text sent by `approveReview`. -/
def approvalText (reviewerId title : String) : String :=
  "<@" ++ reviewerId ++ "> approved your content \"" ++ title ++ "\""

/-- `approveReview(reviewId, reviewerId, reviewerName, comment, client)`:
records an `approved` Feedback (coercing a non-string comment, modelled as
`none`, to the literal `"Approved"`) and reruns the aggregation.  Note: unlike
`addFeedback`, no reviewer-list check is performed. -/
def approveReview (db : DB) (reviewId : String) (reviewerId reviewerName : String)
    (comment : Option String) (hasClient : Bool) (now : JsDate) : DB × OpResult :=
  match db.findByReviewId reviewId with
  | none => (db, .err "Review not found")
  | some review =>
    let fb : Feedback :=
      { reviewId := review.id, reviewerId := reviewerId, reviewerName := reviewerName
        comment := comment.getD "Approved", status := "approved", createdAt := now }
    let db1 : DB := { db with feedbacks := db.feedbacks ++ [fb] }
    let stepped := updateReviewStatus db1 review.id hasClient now
    match stepped.2 with
    | none => (stepped.1, .err "Error updating review status after approval")
    | some u =>
      let db3 :=
        if u.status != "approved" && u.status != "published" && hasClient
            && u.creatorId != reviewerId then
          { stepped.1 with notifications := stepped.1.notifications ++
              [{ channel := u.creatorId, text := approvalText reviewerId u.title }] }
        else stepped.1
      (db3, .ok (some u))

/-- The five-value status enum of the source. -/
def validStatuses : List String :=
  ["draft", "design", "in_review", "approved", "published"]

/-- Channel notification sent by `updateReviewStatusManually` on a new
completion. -/
def manualCompletionNotif (channel title newStatus : String) : Notification :=
  { channel := channel
    text := "Review for \"" ++ title ++ "\" is now complete and " ++ newStatus ++ "!" }

/-- `updateReviewStatusManually(reviewId, newStatus, userId, userName, client)`:
authorizes the actor (creator or reviewer), validates the target status, then
persists it, setting `completedAt` whenever the target is a completion status,
and attempts a channel notification only on a new completion. -/
def updateReviewStatusManually (db : DB) (reviewId : String) (newStatus : String)
    (userId userName : String) (hasClient : Bool) (now : JsDate) : DB × OpResult :=
  match db.findByReviewId reviewId with
  | none => (db, .err "Review not found")
  | some review =>
    if review.creatorId != userId && !review.reviewerIds.contains userId then
      (db, .err "You are not authorized to update this review")
    else if !validStatuses.contains newStatus then
      (db, .err "Invalid status. Must be one of: draft, design, in_review, approved, published")
    else
      let isCompletionStatus := newStatus == "approved" || newStatus == "published"
      let wasCompleted := review.status == "approved" || review.status == "published"
      let isNewCompletion := isCompletionStatus && !wasCompleted
      let updatedReview : Review :=
        { review with
          status := newStatus
          completedAt := if isCompletionStatus then some now else review.completedAt }
      let db1 : DB :=
        { db with reviews := db.reviews.map fun x =>
            if x.reviewId = reviewId then updatedReview else x }
      let db2 :=
        if isNewCompletion && hasClient && updatedReview.channel != "" then
          { db1 with notifications := db1.notifications ++
              [manualCompletionNotif updatedReview.channel updatedReview.title newStatus] }
        else db1
      (db2, .ok (some updatedReview))

/-- The explicit-deadline argument of `createReview`: the raw string the caller
passed (only its length is inspected by the source) together with the date it
parses to (`new Date(deadline)`). -/
structure DeadlineInput where
  raw : String
  parsed : JsDate
deriving DecidableEq

/-- `createReview(...)`: validates the initial status against the enum
(silently replacing an invalid value with `in_review`), computes the deadline
(explicit date-only value forced to 17:00, explicit timed value kept as-is,
default `now + 3 days` at 17:00), and persists the new review. -/
def createReview (db : DB) (title description creatorId creatorName : String)
    (reviewerIds reviewerNames : List String) (channel channelName client : String)
    (url : Option String) (deadline : Option DeadlineInput) (initialStatus : String)
    (now : JsDate) : DB × Review :=
  let status := if validStatuses.contains initialStatus then initialStatus else "in_review"
  let reviewDeadline : JsDate :=
    match deadline with
    | some d => if d.raw.length ≤ 10 then d.parsed.setHours17 else d.parsed
    | none => (now.addDays 3).setHours17
  let review : Review :=
    { id := db.reviews.length
      reviewId := "review_" ++ toString now.epochMs
      title := title, description := description
      creatorId := creatorId, creatorName := creatorName
      reviewerIds := reviewerIds, reviewerNames := reviewerNames
      channel := channel, channelName := channelName, client := client
      url := url
      status := status
      createdAt := now
      deadline := some reviewDeadline
      completedAt := none }
  ({ db with reviews := db.reviews ++ [review] }, review)

/-! ### Association-list lemmas bridging the one-pass map to per-reviewer reduction -/

@[simp] theorem lookupFb_nil (rid : String) : lookupFb [] rid = none := rfl

@[simp] theorem lookupFb_cons (p : String × Feedback) (rest : List (String × Feedback))
    (rid : String) :
    lookupFb (p :: rest) rid = if p.1 = rid then some p.2 else lookupFb rest rid := rfl

theorem lookupFb_append_single (l : List (String × Feedback)) (k : String) (fb : Feedback)
    (rid : String) :
    lookupFb (l ++ [(k, fb)]) rid =
      match lookupFb l rid with
      | some v => some v
      | none => if k = rid then some fb else none := by
  induction l with
  | nil => simp
  | cons p rest ih =>
    by_cases h : p.1 = rid <;> simp [h, ih]

theorem lookupFb_map_replace (l : List (String × Feedback)) (k : String) (fb : Feedback)
    (rid : String) :
    lookupFb (l.map fun p => if p.1 = k then (p.1, fb) else p) rid =
      if k = rid then (lookupFb l rid).map (fun _ => fb) else lookupFb l rid := by
  induction l with
  | nil => simp
  | cons p rest ih =>
    by_cases hk : p.1 = k
    · by_cases hr : p.1 = rid
      · have hkr : k = rid := hk.symm.trans hr
        simp [hk, hr, hkr]
      · have hkr : ¬ k = rid := fun h => hr (hk.trans h)
        simp [hk, hr, hkr, ih]
    · by_cases hr : p.1 = rid
      · have hkr : ¬ k = rid := fun h => hk (hr.trans h.symm)
        simp [hk, hr, hkr, Ne.symm hkr]
      · simp [hk, hr, ih]

theorem lookupFb_upsertLatest (acc : List (String × Feedback)) (fb : Feedback) (rid : String) :
    lookupFb (upsertLatest acc fb) rid = pickLatest rid (lookupFb acc rid) fb := by
  unfold upsertLatest pickLatest
  cases h : lookupFb acc fb.reviewerId with
  | none =>
    by_cases hr : fb.reviewerId = rid
    · subst hr
      simp [h, lookupFb_append_single]
    · cases h' : lookupFb acc rid <;> simp [h', hr, lookupFb_append_single]
  | some old =>
    by_cases hr : fb.reviewerId = rid
    · subst hr
      by_cases ha : fb.createdAt.after old.createdAt <;>
        simp [h, ha, lookupFb_map_replace]
    · by_cases ha : fb.createdAt.after old.createdAt <;>
        simp [h, ha, hr, lookupFb_map_replace]

theorem foldl_upsert_lookup (fbs : List Feedback) (acc : List (String × Feedback))
    (rid : String) :
    lookupFb (List.foldl upsertLatest acc fbs) rid =
      List.foldl (pickLatest rid) (lookupFb acc rid) fbs := by
  induction fbs generalizing acc with
  | nil => rfl
  | cons fb rest ih =>
    rw [List.foldl_cons, List.foldl_cons, ih, lookupFb_upsertLatest]

/-- The map built by the `forEach` loop agrees pointwise with the per-reviewer
latest-feedback reduction. -/
theorem reviewerFeedback_lookup (fbs : List Feedback) (rid : String) :
    lookupFb (reviewerFeedback fbs) rid = latestFor fbs rid :=
  foldl_upsert_lookup fbs [] rid

theorem lookupFb_mem {l : List (String × Feedback)} {rid : String} {v : Feedback}
    (h : lookupFb l rid = some v) : (rid, v) ∈ l := by
  induction l with
  | nil => simp at h
  | cons p rest ih =>
    by_cases hp : p.1 = rid
    · simp [hp] at h
      subst h
      exact hp ▸ List.mem_cons_self p rest
    · simp [hp] at h
      exact List.mem_cons_of_mem _ (ih h)

theorem foldl_pick_none {rid : String} {fbs : List Feedback} {acc : Option Feedback}
    (h : List.foldl (pickLatest rid) acc fbs = none) :
    acc = none ∧ ∀ x ∈ fbs, x.reviewerId ≠ rid := by
  induction fbs generalizing acc with
  | nil => exact ⟨h, by simp⟩
  | cons fb rest ih =>
    rw [List.foldl_cons] at h
    obtain ⟨hstep, hrest⟩ := ih h
    have hfb : fb.reviewerId ≠ rid := by
      intro heq
      unfold pickLatest at hstep
      rw [if_pos heq] at hstep
      cases acc with
      | none => simp at hstep
      | some old =>
        by_cases ha : fb.createdAt.after old.createdAt <;> simp [ha] at hstep
    have hacc : acc = none := by
      unfold pickLatest at hstep
      rw [if_neg hfb] at hstep
      exact hstep
    exact ⟨hacc, by
      intro x hx
      rcases List.mem_cons.mp hx with h1 | h2
      · exact h1 ▸ hfb
      · exact hrest x h2⟩

theorem foldl_pick_mem {rid : String} {fbs : List Feedback} {acc : Option Feedback}
    {fb : Feedback} (h : List.foldl (pickLatest rid) acc fbs = some fb) :
    acc = some fb ∨ (fb ∈ fbs ∧ fb.reviewerId = rid) := by
  induction fbs generalizing acc with
  | nil => exact Or.inl h
  | cons x rest ih =>
    rw [List.foldl_cons] at h
    rcases ih h with hstep | hmem
    · by_cases hx : x.reviewerId = rid
      · unfold pickLatest at hstep
        rw [if_pos hx] at hstep
        cases acc with
        | none =>
          simp at hstep
          exact Or.inr ⟨hstep ▸ List.mem_cons_self x rest, hstep ▸ hx⟩
        | some old =>
          by_cases ha : x.createdAt.after old.createdAt
          · simp [ha] at hstep
            exact Or.inr ⟨hstep ▸ List.mem_cons_self x rest, hstep ▸ hx⟩
          · simp [ha] at hstep
            exact Or.inl (congrArg some hstep)
      · unfold pickLatest at hstep
        rw [if_neg hx] at hstep
        exact Or.inl hstep
    · exact Or.inr ⟨List.mem_cons_of_mem _ hmem.1, hmem.2⟩

/-- The kept feedback of a reviewer is one of their own stored records. -/
theorem latestFor_mem {fbs : List Feedback} {rid : String} {fb : Feedback}
    (h : latestFor fbs rid = some fb) : fb ∈ fbs ∧ fb.reviewerId = rid := by
  rcases foldl_pick_mem h with h' | h'
  · simp at h'
  · exact h'

theorem latestFor_none {fbs : List Feedback} {rid : String}
    (h : latestFor fbs rid = none) : ∀ x ∈ fbs, x.reviewerId ≠ rid :=
  (foldl_pick_none h).2

/-- Keys of an association list. -/
def keysOf (l : List (String × Feedback)) : List String := l.map Prod.fst

theorem not_mem_keys_of_lookupFb_none {l : List (String × Feedback)} {k : String}
    (h : lookupFb l k = none) : k ∉ keysOf l := by
  induction l with
  | nil => simp [keysOf]
  | cons p rest ih =>
    by_cases hp : p.1 = k
    · simp [hp] at h
    · simp [hp] at h
      simp [keysOf]
      exact ⟨fun he => hp he.symm, by simpa [keysOf] using ih h⟩

theorem keysOf_map_replace (l : List (String × Feedback)) (k : String) (fb : Feedback) :
    keysOf (l.map fun p => if p.1 = k then (p.1, fb) else p) = keysOf l := by
  unfold keysOf
  rw [List.map_map]
  exact List.map_congr_left fun p _ => by by_cases hp : p.1 = k <;> simp [hp]

theorem upsertLatest_keys_nodup (acc : List (String × Feedback)) (fb : Feedback)
    (h : (keysOf acc).Nodup) : (keysOf (upsertLatest acc fb)).Nodup := by
  unfold upsertLatest
  cases hl : lookupFb acc fb.reviewerId with
  | none =>
    have hk := not_mem_keys_of_lookupFb_none hl
    have hkeys : keysOf (acc ++ [(fb.reviewerId, fb)]) = keysOf acc ++ [fb.reviewerId] := by
      simp [keysOf]
    rw [hkeys]
    simp only [List.nodup_append, List.nodup_cons, List.not_mem_nil, not_false_iff,
      List.nodup_nil, and_true, true_and]
    exact ⟨h, by simpa using hk⟩
  | some old =>
    by_cases ha : fb.createdAt.after old.createdAt
    · simpa [ha, keysOf_map_replace] using h
    · simpa [ha] using h

theorem reviewerFeedback_keys_nodup (fbs : List Feedback) :
    (keysOf (reviewerFeedback fbs)).Nodup := by
  unfold reviewerFeedback
  have main : ∀ acc, (keysOf acc).Nodup →
      (keysOf (List.foldl upsertLatest acc fbs)).Nodup := by
    induction fbs with
    | nil => intro acc h; exact h
    | cons fb rest ih =>
      intro acc h
      rw [List.foldl_cons]
      exact ih _ (upsertLatest_keys_nodup acc fb h)
  exact main [] (by simp [keysOf])

theorem lookupFb_of_mem {l : List (String × Feedback)} {rid : String} {v : Feedback}
    (hnd : (keysOf l).Nodup) (hm : (rid, v) ∈ l) : lookupFb l rid = some v := by
  induction l with
  | nil => simp at hm
  | cons p rest ih =>
    have hnd2 : (p.1 :: keysOf rest).Nodup := by
      simpa only [keysOf, List.map_cons] using hnd
    have hnd' := List.nodup_cons.mp hnd2
    rcases List.mem_cons.mp hm with h1 | h2
    · rw [← h1]
      simp
    · have hp : ¬ p.1 = rid := by
        intro hpe
        have : rid ∈ keysOf rest := List.mem_map.mpr ⟨(rid, v), h2, rfl⟩
        exact hnd'.1 (hpe ▸ this)
      simp [hp]
      exact ih hnd'.2 h2

theorem specAnyRC_of_any {fbs : List Feedback}
    (h : anyChangeRequested (reviewerFeedback fbs) = true) : specAnyRC fbs = true := by
  unfold anyChangeRequested at h
  rw [List.any_eq_true] at h
  obtain ⟨p, hmem, hrc⟩ := h
  have hl : lookupFb (reviewerFeedback fbs) p.1 = some p.2 :=
    lookupFb_of_mem (reviewerFeedback_keys_nodup fbs) hmem
  have hlat : latestFor fbs p.1 = some p.2 :=
    (reviewerFeedback_lookup fbs p.1) ▸ hl
  obtain ⟨hpm, hprid⟩ := latestFor_mem hlat
  unfold specAnyRC
  rw [List.any_eq_true]
  exact ⟨p.2, hpm, by simp only [hprid, hlat]; exact hrc⟩

theorem any_of_specAnyRC {fbs : List Feedback} (h : specAnyRC fbs = true) :
    anyChangeRequested (reviewerFeedback fbs) = true := by
  unfold specAnyRC at h
  rw [List.any_eq_true] at h
  obtain ⟨fb, hmem, hbody⟩ := h
  cases hlat : latestFor fbs fb.reviewerId with
  | none => rw [hlat] at hbody; simp at hbody
  | some l =>
    rw [hlat] at hbody
    have hrc : l.status == "requested_changes" := by simpa using hbody
    have hl : lookupFb (reviewerFeedback fbs) fb.reviewerId = some l := by
      rw [reviewerFeedback_lookup]; exact hlat
    unfold anyChangeRequested
    rw [List.any_eq_true]
    exact ⟨(fb.reviewerId, l), lookupFb_mem hl, hrc⟩

theorem allApproved_bridge (rids : List String) (fbs : List Feedback) :
    allApproved rids (reviewerFeedback fbs) = specAllApproved rids fbs := by
  unfold allApproved specAllApproved
  simp only [reviewerFeedback_lookup]

theorem anyChangeRequested_bridge (fbs : List Feedback) :
    anyChangeRequested (reviewerFeedback fbs) = specAnyRC fbs := by
  cases ha : anyChangeRequested (reviewerFeedback fbs)
  · cases hs : specAnyRC fbs
    · rfl
    · exact absurd (any_of_specAnyRC hs) (by simp [ha])
  · exact (specAnyRC_of_any ha).symm

/-- `deriveStatus` phrased through the per-reviewer latest-feedback reduction. -/
theorem deriveStatus_spec (cur : String) (rids : List String) (fbs : List Feedback) :
    deriveStatus cur rids fbs =
      if specAllApproved rids fbs && cur == "in_review" then ("approved", true)
      else if specAnyRC fbs then ("in_review", true)
      else (cur, false) := by
  simp only [deriveStatus, allApproved_bridge, anyChangeRequested_bridge]

theorem latestFor_append (fbs : List Feedback) (fb : Feedback) (rid : String) :
    latestFor (fbs ++ [fb]) rid = pickLatest rid (latestFor fbs rid) fb := by
  unfold latestFor
  rw [List.foldl_append]
  rfl

/-- Under strictly increasing `createdAt` timestamps, the kept feedback of a
reviewer is their last-submitted record. -/
theorem latestFor_strict (fbs : List Feedback) (rid : String)
    (h : fbs.Pairwise fun a b => a.createdAt.epochMs < b.createdAt.epochMs) :
    latestFor fbs rid = (fbs.filter fun x => x.reviewerId == rid).getLast? := by
  induction fbs using List.reverseRecOn with
  | nil => rfl
  | append_singleton l fb ih =>
    have hp := List.pairwise_append.mp h
    rw [latestFor_append, List.filter_append]
    by_cases hr : fb.reviewerId = rid
    · have hfb : List.filter (fun x => x.reviewerId == rid) [fb] = [fb] := by simp [hr]
      rw [hfb]
      unfold pickLatest
      rw [if_pos hr]
      cases hlf : latestFor l rid with
      | none => rw [List.getLast?_concat]
      | some old =>
        have hmem := (latestFor_mem hlf).1
        have hlt : old.createdAt.epochMs < fb.createdAt.epochMs :=
          hp.2.2 old hmem fb (by simp)
        have hafter : fb.createdAt.after old.createdAt = true := by
          simp [JsDate.after, hlt]
        simp [hafter, List.getLast?_concat]
    · have hfb : List.filter (fun x => x.reviewerId == rid) [fb] = [] := by simp [hr]
      rw [hfb, List.append_nil]
      unfold pickLatest
      rw [if_neg hr]
      exact ih hp.1

/-- `updateReviewStatus` never touches the feedback table. -/
theorem updateReviewStatus_feedbacks (db : DB) (id : Nat) (hc : Bool) (now : JsDate) :
    ((updateReviewStatus db id hc now).1).feedbacks = db.feedbacks := by
  unfold updateReviewStatus
  cases h : db.findById id with
  | none => rfl
  | some review =>
    dsimp only
    split
    · split <;> rfl
    · rfl

/-- `addFeedback` rejects an author outside the reviewer list before writing. -/
theorem addFeedback_unauthorized (db : DB) (rvid rid name comment status : String)
    (hc : Bool) (now : JsDate) (review : Review)
    (hfind : db.findByReviewId rvid = some review)
    (hnot : rid ∉ review.reviewerIds) :
    addFeedback db rvid rid name comment status hc now =
      (db, .err "You are not authorized to review this item") := by
  have hcont : review.reviewerIds.contains rid = false := by
    simpa using hnot
  unfold addFeedback
  rw [hfind]
  dsimp only
  rw [hcont]
  rfl

/-- `approveReview` appends an `approved` Feedback row authored by the caller,
with no reviewer-list check. -/
theorem approveReview_appends (db : DB) (rvid rid name : String)
    (comment : Option String) (hc : Bool) (now : JsDate) (review : Review)
    (hfind : db.findByReviewId rvid = some review) :
    ((approveReview db rvid rid name comment hc now).1).feedbacks =
      db.feedbacks ++
        [{ reviewId := review.id, reviewerId := rid, reviewerName := name,
           comment := comment.getD "Approved", status := "approved",
           createdAt := now }] := by
  unfold approveReview
  rw [hfind]
  dsimp only
  have hfb := updateReviewStatus_feedbacks
    { db with feedbacks := db.feedbacks ++
        [{ reviewId := review.id, reviewerId := rid, reviewerName := name,
           comment := comment.getD "Approved", status := "approved",
           createdAt := now }] }
    review.id hc now
  split
  · exact hfb
  · split
    · exact hfb
    · exact hfb

/-! ### Claim theorems -/

/-- C1: for a review currently `in_review` whose every listed reviewer has a
latest (by `createdAt`) feedback with status `approved`, the status aggregation
of `updateReviewStatus` derives `approved` with `changed = true` and sets
`completedAt` to the transition time. -/
theorem C1_unanimous_approval (db : DB) (id : Nat) (hc : Bool) (now : JsDate)
    (review : Review)
    (hfind : db.findById id = some review)
    (hstatus : review.status = "in_review")
    (happ : ∀ rid ∈ review.reviewerIds, ∃ fb ∈ db.feedbacksOf review,
      latestFor (db.feedbacksOf review) rid = some fb ∧ fb.status = "approved") :
    (updateReviewStatus db id hc now).2 =
        some { review with status := "approved", completedAt := some now } ∧
      (deriveStatus review.status review.reviewerIds (db.feedbacksOf review)).2 = true := by
  have hAll : specAllApproved review.reviewerIds (db.feedbacksOf review) = true := by
    unfold specAllApproved
    rw [List.all_eq_true]
    intro rid hrid
    obtain ⟨fb, _, hlat, hst⟩ := happ rid hrid
    simp [hlat, hst]
  have hder : deriveStatus review.status review.reviewerIds (db.feedbacksOf review) =
      ("approved", true) := by
    rw [deriveStatus_spec, hstatus]
    simp [hAll]
  refine ⟨?_, by rw [hder]⟩
  unfold updateReviewStatus
  rw [hfind]
  dsimp only
  rw [hder]
  simp

/-- C2: whenever some listed reviewer's latest (by `createdAt`) feedback is
`requested_changes`, the status aggregation derives `in_review` — in
particular an `approved` review is moved back to `in_review`. -/
theorem C2_change_request_derives_in_review (db : DB) (id : Nat) (hc : Bool)
    (now : JsDate) (review : Review)
    (hfind : db.findById id = some review)
    (hrc : ∃ fb ∈ db.feedbacksOf review, fb.reviewerId ∈ review.reviewerIds ∧
      latestFor (db.feedbacksOf review) fb.reviewerId = some fb ∧
      fb.status = "requested_changes") :
    (updateReviewStatus db id hc now).2 =
      some { review with status := "in_review" } := by
  obtain ⟨fb, hmem, hrid, hlat, hst⟩ := hrc
  have hNotAll : specAllApproved review.reviewerIds (db.feedbacksOf review) = false := by
    cases hb : specAllApproved review.reviewerIds (db.feedbacksOf review)
    · rfl
    · exfalso
      have hall := (List.all_eq_true.mp (by exact hb)) fb.reviewerId hrid
      rw [hlat] at hall
      simp [hst] at hall
  have hAnyRC : specAnyRC (db.feedbacksOf review) = true := by
    unfold specAnyRC
    rw [List.any_eq_true]
    exact ⟨fb, hmem, by simp [hlat, hst]⟩
  have hder : deriveStatus review.status review.reviewerIds (db.feedbacksOf review) =
      ("in_review", true) := by
    rw [deriveStatus_spec]
    simp [hNotAll, hAnyRC]
  unfold updateReviewStatus
  rw [hfind]
  dsimp only
  rw [hder]
  simp

/-- C8: an `approved` review with `completedAt` set that is reverted to
`in_review` by a later `requested_changes` feedback keeps its `completedAt`,
and the revert changes no field other than `status`. -/
theorem C8_reopen_keeps_completedAt (db : DB) (id : Nat) (hc : Bool) (now : JsDate)
    (review : Review) (t : JsDate)
    (hfind : db.findById id = some review)
    (hstatus : review.status = "approved")
    (hcomp : review.completedAt = some t)
    (hrc : ∃ fb ∈ db.feedbacksOf review, fb.reviewerId ∈ review.reviewerIds ∧
      latestFor (db.feedbacksOf review) fb.reviewerId = some fb ∧
      fb.status = "requested_changes") :
    updateReviewStatus db id hc now =
      (db.saveReview { review with status := "in_review" },
       some { review with status := "in_review" }) ∧
      ({ review with status := "in_review" } : Review).completedAt = some t := by
  obtain ⟨fb, hmem, hrid, hlat, hst⟩ := hrc
  have hAnyRC : specAnyRC (db.feedbacksOf review) = true := by
    unfold specAnyRC
    rw [List.any_eq_true]
    exact ⟨fb, hmem, by simp [hlat, hst]⟩
  have hder : deriveStatus review.status review.reviewerIds (db.feedbacksOf review) =
      ("in_review", true) := by
    rw [deriveStatus_spec, hstatus]
    simp [hAnyRC]
  refine ⟨?_, hcomp⟩
  unfold updateReviewStatus
  rw [hfind]
  dsimp only
  rw [hder]
  simp

/-! ### Concrete fixtures for witnesses and counterexamples -/

/-- A review in `draft` with reviewer list `["A"]`. -/
def rvA : Review :=
  { id := 0, reviewId := "r1", title := "T", description := ""
    creatorId := "U", creatorName := "User"
    reviewerIds := ["A"], reviewerNames := ["Alice"]
    channel := "C1", channelName := "chan", client := "acme"
    url := none, status := "draft"
    createdAt := ⟨0, 0⟩, deadline := none, completedAt := none }

def dbA : DB := { reviews := [rvA], feedbacks := [], notifications := [] }

def fbA : Feedback :=
  { reviewId := 1, reviewerId := "A", reviewerName := "Alice"
    comment := "ok", status := "approved", createdAt := ⟨0, 1⟩ }

def fbB : Feedback :=
  { reviewId := 1, reviewerId := "B", reviewerName := "Bob"
    comment := "ok", status := "approved", createdAt := ⟨0, 2⟩ }

/-- A review in `in_review` with reviewers `["A", "B"]`. -/
def rvInReview : Review :=
  { id := 1, reviewId := "r2", title := "T2", description := ""
    creatorId := "U", creatorName := "User"
    reviewerIds := ["A", "B"], reviewerNames := ["Alice", "Bob"]
    channel := "C2", channelName := "chan2", client := "acme"
    url := none, status := "in_review"
    createdAt := ⟨0, 0⟩, deadline := none, completedAt := none }

def dbInReview : DB := { reviews := [rvInReview], feedbacks := [fbA, fbB], notifications := [] }

def fbRC : Feedback :=
  { reviewId := 2, reviewerId := "A", reviewerName := "Alice"
    comment := "redo", status := "requested_changes", createdAt := ⟨0, 3⟩ }

/-- An `approved` review with `completedAt` already set. -/
def rvApproved : Review :=
  { id := 2, reviewId := "r3", title := "T3", description := ""
    creatorId := "U", creatorName := "User"
    reviewerIds := ["A"], reviewerNames := ["Alice"]
    channel := "C3", channelName := "chan3", client := "acme"
    url := none, status := "approved"
    createdAt := ⟨0, 0⟩, deadline := none, completedAt := some ⟨0, 2⟩ }

def dbApproved : DB := { reviews := [rvApproved], feedbacks := [fbRC], notifications := [] }

def fbTie1 : Feedback :=
  { reviewId := 0, reviewerId := "A", reviewerName := "Alice"
    comment := "ok", status := "approved", createdAt := ⟨0, 5⟩ }

def fbTie2 : Feedback :=
  { reviewId := 0, reviewerId := "A", reviewerName := "Alice"
    comment := "no", status := "requested_changes", createdAt := ⟨0, 5⟩ }

def fbRC1 : Feedback :=
  { reviewId := 0, reviewerId := "A", reviewerName := "Alice"
    comment := "redo", status := "requested_changes", createdAt := ⟨0, 1⟩ }

def fbApp2 : Feedback :=
  { reviewId := 0, reviewerId := "A", reviewerName := "Alice"
    comment := "ok now", status := "approved", createdAt := ⟨0, 2⟩ }

def db0 : DB := { reviews := [], feedbacks := [], notifications := [] }

/-! ### Remaining claim theorems, counterexamples and witnesses -/

/-- C1 witness: concrete two-reviewer unanimous approval. -/
theorem C1_witness :
    dbInReview.findById 1 = some rvInReview ∧
    rvInReview.status = "in_review" ∧
    (updateReviewStatus dbInReview 1 false ⟨0, 9⟩).2 =
      some { rvInReview with status := "approved", completedAt := some ⟨0, 9⟩ } :=
  ⟨rfl, rfl,
   (C1_unanimous_approval dbInReview 1 false ⟨0, 9⟩ rvInReview rfl rfl (by decide)).1⟩

/-- C2 witness: an `approved` review with a later change request reverts. -/
theorem C2_witness :
    dbApproved.findById 2 = some rvApproved ∧
    (updateReviewStatus dbApproved 2 false ⟨4, 0⟩).2 =
      some { rvApproved with status := "in_review" } :=
  ⟨rfl,
   C2_change_request_derives_in_review dbApproved 2 false ⟨4, 0⟩ rvApproved rfl (by decide)⟩

/-- C8 witness: the revert keeps `completedAt` and the store change is exactly
the status update. -/
theorem C8_witness :
    dbApproved.findById 2 = some rvApproved ∧
    rvApproved.status = "approved" ∧
    rvApproved.completedAt = some ⟨0, 2⟩ ∧
    updateReviewStatus dbApproved 2 true ⟨4, 0⟩ =
      (dbApproved.saveReview { rvApproved with status := "in_review" },
       some { rvApproved with status := "in_review" }) :=
  ⟨rfl, rfl, rfl,
   (C8_reopen_keeps_completedAt dbApproved 2 true ⟨4, 0⟩ rvApproved ⟨0, 2⟩ rfl rfl rfl
     (by decide)).1⟩

/-- C4: feedback from an identity outside the reviewer list is rejected with
the not-authorized error and the store is left completely unchanged. -/
theorem C4_unauthorized_feedback_rejected (db : DB)
    (rvid rid name comment status : String) (hc : Bool) (now : JsDate) (review : Review)
    (hfind : db.findByReviewId rvid = some review)
    (hnot : rid ∉ review.reviewerIds) :
    addFeedback db rvid rid name comment status hc now =
      (db, .err "You are not authorized to review this item") :=
  addFeedback_unauthorized db rvid rid name comment status hc now review hfind hnot

/-- C4 witness: a concrete unauthorized feedback attempt. -/
theorem C4_witness :
    dbA.findByReviewId "r1" = some rvA ∧
    "Z" ∉ rvA.reviewerIds ∧
    addFeedback dbA "r1" "Z" "Zed" "nope" "requested_changes" false ⟨0, 7⟩ =
      (dbA, .err "You are not authorized to review this item") :=
  ⟨rfl, by decide,
   C4_unauthorized_feedback_rejected dbA "r1" "Z" "Zed" "nope" "requested_changes"
     false ⟨0, 7⟩ rvA rfl (by decide)⟩

/-- C3 counterexample: `approveReview` called by "B", who is not in the
reviewer list `["A"]`, nonetheless creates an approved Feedback row authored
by "B". -/
theorem C3_counterexample :
    "B" ∉ rvA.reviewerIds ∧
    ((approveReview dbA "r1" "B" "Bob" none false ⟨0, 5⟩).1).feedbacks =
      [{ reviewId := 0, reviewerId := "B", reviewerName := "Bob",
         comment := "Approved", status := "approved", createdAt := ⟨0, 5⟩ }] := by
  constructor
  · decide
  · rfl

/-- C3 amended: the reviewer-list restriction is enforced at write time by
`addFeedback`, which rejects outside authors without creating a row, but
`approveReview` performs no reviewer-list check and appends an approved
Feedback row authored by any caller identity on an existing review. -/
theorem C3_write_time_enforcement_amended :
    (∀ (db : DB) (rvid rid name comment status : String) (hc : Bool) (now : JsDate)
        (review : Review), db.findByReviewId rvid = some review →
        rid ∉ review.reviewerIds →
        addFeedback db rvid rid name comment status hc now =
          (db, .err "You are not authorized to review this item")) ∧
    (∀ (db : DB) (rvid rid name : String) (comment : Option String) (hc : Bool)
        (now : JsDate) (review : Review), db.findByReviewId rvid = some review →
        ((approveReview db rvid rid name comment hc now).1).feedbacks =
          db.feedbacks ++
            [{ reviewId := review.id, reviewerId := rid, reviewerName := name,
               comment := comment.getD "Approved", status := "approved",
               createdAt := now }]) :=
  ⟨fun db rvid rid name comment status hc now review hfind hnot =>
     addFeedback_unauthorized db rvid rid name comment status hc now review hfind hnot,
   fun db rvid rid name comment hc now review hfind =>
     approveReview_appends db rvid rid name comment hc now review hfind⟩

/-- C3 amended witness: concrete rejected `addFeedback` and concrete
unauthorized `approveReview` that writes anyway. -/
theorem C3_amended_witness :
    addFeedback dbA "r1" "B" "Bob" "hi" "approved" false ⟨0, 5⟩ =
        (dbA, .err "You are not authorized to review this item") ∧
      ((approveReview dbA "r1" "B" "Bob" none false ⟨0, 5⟩).1).feedbacks =
        dbA.feedbacks ++
          [{ reviewId := rvA.id, reviewerId := "B", reviewerName := "Bob",
             comment := "Approved", status := "approved", createdAt := ⟨0, 5⟩ }] :=
  ⟨(C3_write_time_enforcement_amended).1 dbA "r1" "B" "Bob" "hi" "approved" false ⟨0, 5⟩
     rvA rfl (by decide),
   (C3_write_time_enforcement_amended).2 dbA "r1" "B" "Bob" none false ⟨0, 5⟩ rvA rfl⟩

/-- C5 counterexample: one reviewer whose latest feedback is requested_changes
while the status is already in_review: the target equals the current status
yet `changed = true`, and a second run still returns `changed = true`. -/
theorem C5_counterexample :
    deriveStatus "in_review" ["A"] [fbRC] = ("in_review", true) ∧
    deriveStatus (deriveStatus "in_review" ["A"] [fbRC]).1 ["A"] [fbRC] =
      ("in_review", true) := by
  constructor <;> rfl

/-- C5 amended: the changed flag is true exactly when a transition branch
fires — changed = (allApproved AND current = in_review) OR anyChangeRequested —
which can hold even when the target equals the current status; a second run on
the produced status returns changed = anyChangeRequested, hence false exactly
when no latest feedback is requested_changes. -/
theorem C5_changed_flag_amended (cur : String) (rids : List String)
    (fbs : List Feedback) :
    (deriveStatus cur rids fbs).2 =
        (specAllApproved rids fbs && cur == "in_review" || specAnyRC fbs) ∧
      (deriveStatus (deriveStatus cur rids fbs).1 rids fbs).2 = specAnyRC fbs := by
  constructor
  · rw [deriveStatus_spec]
    cases h1 : (specAllApproved rids fbs && cur == "in_review")
    · cases h2 : specAnyRC fbs <;> simp [h1, h2]
    · simp [h1]
  · rw [deriveStatus_spec cur rids fbs]
    cases h1 : (specAllApproved rids fbs && cur == "in_review")
    · cases h2 : specAnyRC fbs
      · simp [deriveStatus_spec, h1, h2]
      · cases h3 : specAllApproved rids fbs <;> simp [deriveStatus_spec, h2, h3]
    · cases h2 : specAnyRC fbs <;>
        simp [deriveStatus_spec, h2, Bool.and_eq_true] at h1 ⊢

/-- C6 counterexample: on equal `createdAt` timestamps the earlier-scanned
record is kept — the later-scanned requested_changes record does not displace
the earlier approved one, contrary to the stated tie rule. -/
theorem C6_counterexample :
    latestFor [fbTie1, fbTie2] "A" = some fbTie1 ∧ fbTie1 ≠ fbTie2 := by
  constructor <;> decide

/-- C6 amended: under strictly increasing timestamps only a reviewer's last
submitted feedback counts (so requested_changes followed by approved counts as
approved); on equal timestamps the EARLIER-scanned record is kept (a new
record whose timestamp is not strictly greater never displaces the kept one);
and `addFeedback` appends, so superseded feedback remains stored. -/
theorem C6_latest_wins_amended :
    (∀ (fbs : List Feedback) (rid : String),
        fbs.Pairwise (fun a b => a.createdAt.epochMs < b.createdAt.epochMs) →
        latestFor fbs rid = (fbs.filter fun x => x.reviewerId == rid).getLast?) ∧
    (∀ (fbs : List Feedback) (fb old : Feedback),
        latestFor fbs fb.reviewerId = some old →
        fb.createdAt.after old.createdAt = false →
        latestFor (fbs ++ [fb]) fb.reviewerId = some old) ∧
    (∀ (db : DB) (rvid rid name comment status : String) (hc : Bool) (now : JsDate)
        (review : Review), db.findByReviewId rvid = some review →
        review.reviewerIds.contains rid = true →
        ((addFeedback db rvid rid name comment status hc now).1).feedbacks =
          db.feedbacks ++
            [{ reviewId := review.id, reviewerId := rid, reviewerName := name,
               comment := comment, status := status, createdAt := now }]) := by
  refine ⟨fun fbs rid h => latestFor_strict fbs rid h, ?_, ?_⟩
  · intro fbs fb old hl hafter
    rw [latestFor_append]
    unfold pickLatest
    rw [if_pos rfl, hl]
    simp [hafter]
  · intro db rvid rid name comment status hc now review hfind hcont
    unfold addFeedback
    rw [hfind]
    dsimp only
    rw [hcont, if_pos rfl]
    exact updateReviewStatus_feedbacks _ review.id hc now

/-- C6 witness: requested_changes then approved from the same reviewer counts
as approved (the kept record is the last submitted one). -/
theorem C6_witness :
    ([fbRC1, fbApp2].Pairwise fun a b => a.createdAt.epochMs < b.createdAt.epochMs) ∧
    latestFor [fbRC1, fbApp2] "A" =
      (([fbRC1, fbApp2].filter fun x => x.reviewerId == "A").getLast?) :=
  ⟨by decide, (C6_latest_wins_amended).1 [fbRC1, fbApp2] "A" (by decide)⟩

/-- The source's Bool completion test phrased as a decidable proposition. -/
theorem completion_bool (s : String) :
    (s == "approved" || s == "published") =
      decide (s = "approved" ∨ s = "published") := by
  by_cases h1 : s = "approved"
  · simp [h1]
  · by_cases h2 : s = "published" <;> simp [h1, h2]

/-- C7 counterexample: a review already `approved` (so `isNewCompletion` is
false) manually set to `published` still gets its `completedAt` overwritten
with the current time. -/
theorem C7_counterexample :
    (rvApproved.status = "approved" ∨ rvApproved.status = "published") ∧
    (updateReviewStatusManually dbApproved "r3" "published" "U" "User" true ⟨3, 0⟩).2 =
      OpResult.ok
        (some { rvApproved with
                status := "published", completedAt := some ⟨3, 0⟩ }) ∧
    rvApproved.completedAt ≠ some ⟨3, 0⟩ := by
  refine ⟨Or.inl rfl, ?_, by decide⟩
  rfl

/-- C7 amended: on an authorized manual override with a valid status,
`completedAt` is set to the current time whenever the target status is
`approved` or `published` — even when the review was already completed, so not
only when `isNewCompletion` holds; when the target is not a completion status
`completedAt` is unchanged; and the completion notification to the origin
channel is attempted exactly when `isNewCompletion` holds (with a client
handle present and a nonempty channel). -/
theorem C7_manual_override_amended (db : DB) (rvid newStatus userId userName : String)
    (hc : Bool) (now : JsDate) (review : Review)
    (hfind : db.findByReviewId rvid = some review)
    (hauth : review.creatorId = userId ∨ userId ∈ review.reviewerIds)
    (hvalid : newStatus ∈ validStatuses) :
    (updateReviewStatusManually db rvid newStatus userId userName hc now).2 =
        OpResult.ok
          (some { review with
                  status := newStatus,
                  completedAt := if newStatus = "approved" ∨ newStatus = "published"
                                 then some now else review.completedAt }) ∧
      ((updateReviewStatusManually db rvid newStatus userId userName hc now).1).notifications =
        db.notifications ++
          (if (newStatus = "approved" ∨ newStatus = "published") ∧
              ¬(review.status = "approved" ∨ review.status = "published") ∧
              hc = true ∧ ¬review.channel = ""
           then [manualCompletionNotif review.channel review.title newStatus]
           else []) := by
  have hguard : (review.creatorId != userId && !review.reviewerIds.contains userId) = false := by
    rcases hauth with h | h
    · simp [h]
    · simp [h]
  have hvb : (!validStatuses.contains newStatus) = false := by
    simp [hvalid]
  unfold updateReviewStatusManually
  rw [hfind]
  dsimp only
  rw [hguard, hvb]
  rw [completion_bool newStatus, completion_bool review.status]
  by_cases hP : newStatus = "approved" ∨ newStatus = "published" <;>
    by_cases hQ : review.status = "approved" ∨ review.status = "published" <;>
      cases hc <;> by_cases hch : review.channel = "" <;>
        simp [hP, hQ, hch, manualCompletionNotif]

/-- C7 amended witness: a concrete new completion sets `completedAt` and
notifies. -/
theorem C7_witness :
    dbInReview.findByReviewId "r2" = some rvInReview ∧
    (rvInReview.creatorId = "U" ∨ "U" ∈ rvInReview.reviewerIds) ∧
    "approved" ∈ validStatuses ∧
    (updateReviewStatusManually dbInReview "r2" "approved" "U" "User" true ⟨2, 0⟩).2 =
      OpResult.ok
        (some { rvInReview with
                status := "approved", completedAt := some ⟨2, 0⟩ }) := by
  refine ⟨rfl, Or.inl rfl, by decide, ?_⟩
  have h := (C7_manual_override_amended dbInReview "r2" "approved" "U" "User" true ⟨2, 0⟩
    rvInReview rfl (Or.inl rfl) (by decide)).1
  simpa using h

/-- C9 counterexample: `createReview` called with an empty reviewer list does
not fail — it persists a Review record (with zero reviewers). -/
theorem C9_counterexample :
    ((createReview db0 "T" "" "U" "User" [] [] "C" "Chan" "acme" none none
        "in_review" ⟨0, 0⟩).1).reviews =
      [(createReview db0 "T" "" "U" "User" [] [] "C" "Chan" "acme" none none
        "in_review" ⟨0, 0⟩).2] ∧
    ((createReview db0 "T" "" "U" "User" [] [] "C" "Chan" "acme" none none
        "in_review" ⟨0, 0⟩).2).reviewerIds = [] := by
  constructor <;> rfl

/-- C9 amended: `createReview` performs no reviewer-count check; called with an
empty reviewer list it does not fail and persists a Review whose reviewer list
is empty (the zero-reviewer refusal exists only in the command handler
upstream of this operation). -/
theorem C9_empty_reviewers_amended (db : DB)
    (title description creatorId creatorName : String) (reviewerNames : List String)
    (channel channelName client : String) (url : Option String)
    (deadline : Option DeadlineInput) (initialStatus : String) (now : JsDate) :
    ((createReview db title description creatorId creatorName [] reviewerNames
        channel channelName client url deadline initialStatus now).1).reviews =
      db.reviews ++ [(createReview db title description creatorId creatorName [] reviewerNames
        channel channelName client url deadline initialStatus now).2] ∧
    ((createReview db title description creatorId creatorName [] reviewerNames
        channel channelName client url deadline initialStatus now).2).reviewerIds = [] := by
  constructor <;> rfl

/-- C10: at creation, a missing deadline defaults to now + 3 days at 17:00
local; an explicit date-only deadline (raw string of length at most 10,
i.e. YYYY-MM-DD) has its time forced to 17:00; an explicit deadline with a
time component is stored as-is; an initial status outside the five-value enum
is silently replaced with `in_review`; and in every case the review is
persisted. -/
theorem C10_create_defaults (db : DB)
    (title description creatorId creatorName : String)
    (reviewerIds reviewerNames : List String)
    (channel channelName client : String) (url : Option String)
    (deadline : Option DeadlineInput) (initialStatus : String) (now : JsDate) :
    (deadline = none →
      ((createReview db title description creatorId creatorName reviewerIds reviewerNames
          channel channelName client url deadline initialStatus now).2).deadline =
        some ⟨now.day + 3, 61200000⟩) ∧
    (∀ d, deadline = some d → d.raw.length ≤ 10 →
      ((createReview db title description creatorId creatorName reviewerIds reviewerNames
          channel channelName client url deadline initialStatus now).2).deadline =
        some ⟨d.parsed.day, 61200000⟩) ∧
    (∀ d, deadline = some d → 10 < d.raw.length →
      ((createReview db title description creatorId creatorName reviewerIds reviewerNames
          channel channelName client url deadline initialStatus now).2).deadline =
        some d.parsed) ∧
    (initialStatus ∉ validStatuses →
      ((createReview db title description creatorId creatorName reviewerIds reviewerNames
          channel channelName client url deadline initialStatus now).2).status =
        "in_review") ∧
    ((createReview db title description creatorId creatorName reviewerIds reviewerNames
        channel channelName client url deadline initialStatus now).1).reviews =
      db.reviews ++ [(createReview db title description creatorId creatorName reviewerIds
        reviewerNames channel channelName client url deadline initialStatus now).2] := by
  refine ⟨?_, ?_, ?_, ?_, rfl⟩
  · intro h
    subst h
    rfl
  · intro d h hlen
    subst h
    unfold createReview
    dsimp only
    rw [if_pos hlen]
    rfl
  · intro d h hlen
    subst h
    unfold createReview
    dsimp only
    rw [if_neg (by omega)]
  · intro h
    have hcont : validStatuses.contains initialStatus = false := by simpa using h
    unfold createReview
    dsimp only
    rw [hcont, if_neg (by simp)]

/-- C10 witness: no explicit deadline and a bogus initial status yield the
three-day 17:00 default deadline and the `in_review` fallback status. -/
theorem C10_witness :
    ((createReview db0 "T" "" "U" "User" ["A"] ["Alice"] "C" "Chan" "acme" none
        none "bogus" ⟨10, 111⟩).2).deadline = some ⟨13, 61200000⟩ ∧
    ((createReview db0 "T" "" "U" "User" ["A"] ["Alice"] "C" "Chan" "acme" none
        none "bogus" ⟨10, 111⟩).2).status = "in_review" := by
  constructor
  · have h := (C10_create_defaults db0 "T" "" "U" "User" ["A"] ["Alice"] "C" "Chan"
      "acme" none none "bogus" ⟨10, 111⟩).1 rfl
    simpa using h
  · exact (C10_create_defaults db0 "T" "" "U" "User" ["A"] ["Alice"] "C" "Chan"
      "acme" none none "bogus" ⟨10, 111⟩).2.2.2.1 (by decide)

end ReviewBot
